import Mathlib

/-!
Verification of the walltz fetch core (`src/cli/fetch.rs`): name resolution,
search-parameter composition, the run pipeline (persist / assign phases) and
the external apply-command template substitution, shallowly embedded in Lean.
-/

namespace Walltz

/-- Rust `char::to_ascii_lowercase`: maps only ASCII uppercase letters. -/
def asciiLower (c : Char) : Char :=
  if 'A' ≤ c ∧ c ≤ 'Z' then Char.ofNat (c.toNat + 32) else c

/-- The positional similarity score of `fetch.rs` lines 50-58 / 123-131:
zip the ASCII-lowercased characters of the candidate name and the query
index-by-index (up to the shorter length) and count equal pairs. -/
def similarity (name query : String) : Nat :=
  ((name.toList.map asciiLower).zip (query.toList.map asciiLower)).countP
    (fun p => p.1 == p.2)

/-- Category entry from configuration. Field shapes as used by `fetch.rs`
(`name`, `tags`, `aspect_ratios: Option<_>`); ratio entries are
(width, height) pairs per the configuration description. -/
structure CategoryConfig where
  name : String
  tags : List String
  aspect_ratios : Option (List (Nat × Nat))
deriving DecidableEq, Repr

/-- Supplier reference entry from configuration (`name`, `file`). -/
structure SupplierRef where
  name : String
  file : String
deriving DecidableEq, Repr

/-- Outcome of one name resolution, as produced by the decision ladder in
`FetchArgs::run`: success, the "did you mean: X?" bail (one suggestion), or
the unknown-name bail (a list of suggestions, possibly empty). -/
inductive Resolution (α : Type) where
  | success (best : α)
  | ambiguous (query suggestion : String)
  | unknown (query : String) (suggestions : List String)
deriving DecidableEq, Repr

/-- Comparator of the category sort (`sort_by(|(_, s1), (_, s2)| s2.cmp(s1))`):
descending by score. Rust `sort_by` is stable; `List.insertionSort` with this
relation places a tied element before later tied elements, reproducing the
stable descending sort. -/
def descRel {β : Type} (a b : β × Nat) : Prop := b.2 ≤ a.2

/-- Comparator of the supplier sort (`sort_by(|(_, s1), (_, s2)| s1.cmp(s2))`):
ascending by score (as written in the source). -/
def ascRel {β : Type} (a b : β × Nat) : Prop := a.2 ≤ b.2

instance {β : Type} : DecidableRel (descRel (β := β)) :=
  fun a b => inferInstanceAs (Decidable (b.2 ≤ a.2))

instance {β : Type} : DecidableRel (ascRel (β := β)) :=
  fun a b => inferInstanceAs (Decidable (a.2 ≤ b.2))

instance {β : Type} : IsTotal (β × Nat) descRel :=
  ⟨fun a b => Nat.le_total b.2 a.2⟩

instance {β : Type} : IsTrans (β × Nat) descRel :=
  ⟨fun _ _ _ h1 h2 => Nat.le_trans h2 h1⟩

instance {β : Type} : IsTotal (β × Nat) ascRel :=
  ⟨fun a b => Nat.le_total a.2 b.2⟩

instance {β : Type} : IsTrans (β × Nat) ascRel :=
  ⟨fun _ _ _ h1 h2 => Nat.le_trans h1 h2⟩

/-- Candidates paired with their similarity scores (lines 47-60 / 120-133). -/
def scoredCategories (cands : List CategoryConfig) (query : String) :
    List (CategoryConfig × Nat) :=
  cands.map (fun c => (c, similarity c.name query))

/-- The suggestion list of the category unknown-name branch (lines 78-84):
names of the first five entries of the descending-sorted candidate list. -/
def categorySuggestions (cands : List CategoryConfig) (query : String) :
    List String :=
  (((scoredCategories cands query).insertionSort descRel).take 5).map
    (fun v => v.1.name)

/-- Category name resolution (`fetch.rs` lines 47-88): score all candidates,
stable-sort descending by score, take the first as `best`, then decide:
score equal to the query LENGTH is success; ratio at least one half is the
ambiguous bail; otherwise the unknown bail with up to five suggestions.
The length the source compares against is `category_name.len()`, Rust's
UTF-8 BYTE count — `String.utf8ByteSize` here — while the score counts
matching character pairs, so a non-ASCII query can never reach the success
branch. Returns `none` for the empty candidate list, which the caller rules
out before resolving. The source compares `sim as f32 / len as f32 >= 0.5`;
for the sizes involved this is exactly `2 * sim ≥ len`, which is how the
test is rendered here. -/
def resolveCategory (cands : List CategoryConfig) (query : String) :
    Option (Resolution CategoryConfig) :=
  match ((scoredCategories cands query).insertionSort descRel).head? with
  | none => none
  | some (best, sim) =>
    some (if sim = query.utf8ByteSize then .success best
      else if 2 * sim ≥ query.utf8ByteSize then .ambiguous query best.name
      else .unknown query (categorySuggestions cands query))

/-- Candidates paired with their similarity scores, supplier side. -/
def scoredSuppliers (cands : List SupplierRef) (query : String) :
    List (SupplierRef × Nat) :=
  cands.map (fun c => (c, similarity c.name query))

/-- Supplier name resolution (`fetch.rs` lines 118-154). The source sorts
with `simularity1.cmp(simularity2)`, i.e. ASCENDING by score, and its
unknown-name bail (`"No suppliers for name: ..."`) carries no suggestions.
As on the category side, the compared `supplier_name.len()` is the UTF-8
byte count (`String.utf8ByteSize`). -/
def resolveSupplier (cands : List SupplierRef) (query : String) :
    Option (Resolution SupplierRef) :=
  match ((scoredSuppliers cands query).insertionSort ascRel).head? with
  | none => none
  | some (best, sim) =>
    some (if sim = query.utf8ByteSize then .success best
      else if 2 * sim ≥ query.utf8ByteSize then .ambiguous query best.name
      else .unknown query [])

/-! ### Basic lemmas about the similarity score -/

lemma countEq_le_right (as bs : List Char) :
    ((as.zip bs).countP (fun p => p.1 == p.2)) ≤ bs.length := by
  calc ((as.zip bs).countP (fun p => p.1 == p.2)) ≤ (as.zip bs).length :=
        List.countP_le_length _
    _ ≤ bs.length := by rw [List.length_zip]; exact Nat.min_le_right _ _

lemma similarity_le (name query : String) : similarity name query ≤ query.length := by
  have h := countEq_le_right (name.toList.map asciiLower) (query.toList.map asciiLower)
  rw [List.length_map] at h
  exact h

/-- Every character occupies at least one UTF-8 byte, so Rust's
`String::len()` (the byte count) dominates the character count. -/
lemma length_le_utf8ByteSize (s : String) : s.length ≤ s.utf8ByteSize := by
  cases s with
  | mk data =>
    show data.length ≤ String.utf8ByteSize.go data
    induction data with
    | nil => simp [String.utf8ByteSize.go]
    | cons c cs ih =>
      simp only [List.length_cons, String.utf8ByteSize.go]
      have hc := Char.utf8Size_pos c
      omega

lemma similarity_le_utf8 (name query : String) :
    similarity name query ≤ query.utf8ByteSize :=
  Nat.le_trans (similarity_le name query) (length_le_utf8ByteSize query)

/-- If every position of `bs` matched, then `bs` is a prefix of `as`. -/
lemma countEq_eq_length_prefix :
    ∀ (as bs : List Char),
      ((as.zip bs).countP (fun p => p.1 == p.2)) = bs.length → bs <+: as := by
  intro as
  induction as with
  | nil =>
    intro bs h
    simp only [List.zip_nil_left, List.countP_nil] at h
    cases bs with
    | nil => exact List.nil_prefix
    | cons b bs => simp at h
  | cons a as ih =>
    intro bs h
    cases bs with
    | nil => exact List.nil_prefix
    | cons b bs =>
      rw [List.zip_cons_cons, List.countP_cons] at h
      simp only [List.length_cons] at h
      by_cases hab : a = b
      · subst hab
        simp only [beq_self_eq_true, if_pos] at h
        have h2 : ((as.zip bs).countP (fun p => p.1 == p.2)) = bs.length := by
          omega
        rcases ih bs h2 with ⟨t, ht⟩
        exact ⟨t, by rw [List.cons_append, ht]⟩
      · have hne : (a == b) = false := beq_eq_false_iff_ne.mpr hab
        simp only [hne, if_neg, Bool.false_eq_true, if_false] at h
        have hle := countEq_le_right as bs
        omega

lemma countEq_self (l : List Char) :
    ((l.zip l).countP (fun p => p.1 == p.2)) = l.length := by
  induction l with
  | nil => rfl
  | cons a l ih => simp [List.countP_cons, ih]

/-- A case-insensitively equal name scores exactly the query length. -/
lemma similarity_of_lower_eq {name query : String}
    (h : name.toList.map asciiLower = query.toList.map asciiLower) :
    similarity name query = query.length := by
  unfold similarity
  rw [h, countEq_self, List.length_map]
  rfl

/-! ### Lemmas about the stable sorts used by resolution -/

lemma head_insertionSort_rel {α : Type} (r : α → α → Prop) [DecidableRel r]
    [IsTotal α r] [IsTrans α r] (l : List α) (x : α) (xs : List α)
    (h : l.insertionSort r = x :: xs) : ∀ y ∈ l, r x y := by
  intro y hy
  have hs : List.Sorted r (l.insertionSort r) := List.sorted_insertionSort r l
  rw [h] at hs
  have hmem : y ∈ x :: xs := by
    rw [← h]
    exact (List.mem_insertionSort r).mpr hy
  rcases List.mem_cons.mp hmem with rfl | hmem2
  · rcases total_of r y y with h1 | h1 <;> exact h1
  · exact List.rel_of_sorted_cons hs y hmem2

lemma insertionSort_map_const {β : Type} (r : (β × Nat) → (β × Nat) → Prop)
    [DecidableRel r] (l : List β) (k : Nat) (hr : ∀ a b : β, r (a, k) (b, k)) :
    (l.map (fun c => (c, k))).insertionSort r = l.map (fun c => (c, k)) := by
  induction l with
  | nil => rfl
  | cons a l ih =>
    rw [List.map_cons, List.insertionSort, ih]
    cases l with
    | nil => rfl
    | cons b l' => rw [List.map_cons, List.orderedInsert, if_pos (hr a b)]

lemma mem_scoredCategories {cands : List CategoryConfig} {query : String}
    {p : CategoryConfig × Nat} (hp : p ∈ scoredCategories cands query) :
    p.1 ∈ cands ∧ p.2 = similarity p.1.name query := by
  rcases List.mem_map.mp hp with ⟨c, hc, hceq⟩
  rw [← hceq]
  exact ⟨hc, rfl⟩

lemma mem_scoredSuppliers {cands : List SupplierRef} {query : String}
    {p : SupplierRef × Nat} (hp : p ∈ scoredSuppliers cands query) :
    p.1 ∈ cands ∧ p.2 = similarity p.1.name query := by
  rcases List.mem_map.mp hp with ⟨c, hc, hceq⟩
  rw [← hceq]
  exact ⟨hc, rfl⟩

lemma similarity_empty (name : String) : similarity name "" = 0 := by
  have h : ("" : String).toList.map asciiLower = [] := rfl
  unfold similarity
  rw [h, List.zip_nil_right, List.countP_nil]

lemma scoredCategories_empty_query (l : List CategoryConfig) :
    scoredCategories l "" = l.map (fun d => (d, 0)) := by
  have hf : (fun (d : CategoryConfig) => (d, similarity d.name "")) =
      (fun d => (d, (0 : Nat))) :=
    funext (fun d => by rw [similarity_empty])
  unfold scoredCategories
  rw [hf]

lemma scoredSuppliers_empty_query (l : List SupplierRef) :
    scoredSuppliers l "" = l.map (fun d => (d, 0)) := by
  have hf : (fun (d : SupplierRef) => (d, similarity d.name "")) =
      (fun d => (d, (0 : Nat))) :=
    funext (fun d => by rw [similarity_empty])
  unfold scoredSuppliers
  rw [hf]

/-- C9: for every non-empty candidate list (categories and suppliers alike),
resolution with the empty query succeeds — every candidate scores 0, which
equals the query length, so the equality branch fires — and the stable sort
leaves the all-tied list in input order, so the first configured candidate
is returned. -/
theorem empty_query_resolves_first (c : CategoryConfig) (cs : List CategoryConfig)
    (s : SupplierRef) (ss : List SupplierRef) :
    resolveCategory (c :: cs) "" = some (.success c)
    ∧ resolveSupplier (s :: ss) "" = some (.success s) := by
  constructor
  · unfold resolveCategory
    rw [scoredCategories_empty_query,
      insertionSort_map_const descRel (c :: cs) 0
        (fun a b => show (0 : Nat) ≤ 0 from Nat.le.refl)]
    rfl
  · unfold resolveSupplier
    rw [scoredSuppliers_empty_query,
      insertionSort_map_const ascRel (s :: ss) 0
        (fun a b => show (0 : Nat) ≤ 0 from Nat.le.refl)]
    rfl

/-- C10: whenever category resolution succeeds on a non-empty query, the
returned candidate's ASCII-lowercased name has the lowercased query as a
prefix (so its name is at least as long as the query and all query positions
matched case-insensitively). -/
theorem success_implies_prefix (cands : List CategoryConfig) (query : String)
    (c : CategoryConfig) (hq : query ≠ "")
    (h : resolveCategory cands query = some (.success c)) :
    (query.toList.map asciiLower) <+: (c.name.toList.map asciiLower)
    ∧ query.length ≤ c.name.length := by
  unfold resolveCategory at h
  cases hsort : (scoredCategories cands query).insertionSort descRel with
  | nil => rw [hsort] at h; simp at h
  | cons p rest =>
    obtain ⟨b, s⟩ := p
    rw [hsort] at h
    simp only [List.head?_cons] at h
    have hmem : (b, s) ∈ scoredCategories cands query := by
      have hm : (b, s) ∈ (scoredCategories cands query).insertionSort descRel := by
        rw [hsort]; exact List.mem_cons_self _ _
      exact (List.mem_insertionSort descRel).mp hm
    obtain ⟨hbmem, hbs⟩ := mem_scoredCategories hmem
    have hbmem2 : b ∈ cands := hbmem
    have hbs2 : s = similarity b.name query := hbs
    by_cases h1 : s = query.utf8ByteSize
    · rw [if_pos h1] at h
      have hbc : b = c := by
        injection h with h3
        injection h3
      subst hbc
      have hsim : similarity b.name query = query.length := by
        have hle := similarity_le b.name query
        have hby := length_le_utf8ByteSize query
        omega
      have hcount :
          (((b.name.toList.map asciiLower).zip (query.toList.map asciiLower)).countP
            (fun p => p.1 == p.2)) = (query.toList.map asciiLower).length := by
        rw [List.length_map]
        exact hsim
      have hpre := countEq_eq_length_prefix _ _ hcount
      refine ⟨hpre, ?_⟩
      have hlen := hpre.length_le
      rw [List.length_map, List.length_map] at hlen
      exact hlen
    · exfalso
      rw [if_neg h1] at h
      by_cases h2 : 2 * s ≥ query.utf8ByteSize
      · rw [if_pos h2] at h
        injection h with h3
        injection h3
      · rw [if_neg h2] at h
        injection h with h3
        injection h3

/-- C2 (counterexample): the candidate "ab" matches the query "ab" exactly,
yet resolution returns the other candidate "abc" (which also scores 2 and
comes first in the stable descending sort); and an exact non-ASCII match
does not even succeed — the query "é" against the sole candidate "é"
scores 1 character match but the code compares against the UTF-8 byte
length 2, ratio 0.5, and bails with the ambiguous-name error. -/
theorem exact_match_not_returned_cex :
    resolveCategory [⟨"abc", [], none⟩, ⟨"ab", [], none⟩] "ab"
      = some (.success ⟨"abc", [], none⟩)
    ∧ resolveCategory [⟨"abc", [], none⟩, ⟨"ab", [], none⟩] "ab"
      ≠ some (.success ⟨"ab", [], none⟩)
    ∧ resolveCategory [⟨"é", [], none⟩] "é"
      = some (.ambiguous "é" "é") := by
  decide

/-- C2 (amended): when some candidate's name equals the query
case-insensitively AND the query's UTF-8 byte length equals its character
count (every character is a single byte, e.g. ASCII), resolution succeeds;
the returned candidate is a maximal-score candidate whose score equals the
query length, but it need not be the exactly-matching candidate itself.
(Without the byte-length condition the success test `score ==
query.len()` compares characters against bytes and an exact match bails.) -/
theorem exact_match_resolves_maximal (cands : List CategoryConfig) (query : String)
    (c : CategoryConfig) (hc : c ∈ cands)
    (hascii : query.utf8ByteSize = query.length)
    (hlow : c.name.toList.map asciiLower = query.toList.map asciiLower) :
    ∃ b, resolveCategory cands query = some (.success b) ∧ b ∈ cands
      ∧ similarity b.name query = query.length
      ∧ ∀ d ∈ cands, similarity d.name query ≤ similarity b.name query := by
  have hclen : similarity c.name query = query.length := similarity_of_lower_eq hlow
  cases hsort : (scoredCategories cands query).insertionSort descRel with
  | nil =>
    exfalso
    have hperm := List.perm_insertionSort descRel (scoredCategories cands query)
    rw [hsort] at hperm
    have hnil : scoredCategories cands query = [] := hperm.symm.eq_nil
    have : cands = [] := by
      unfold scoredCategories at hnil
      exact List.map_eq_nil_iff.mp hnil
    exact List.ne_nil_of_mem hc this
  | cons p rest =>
    obtain ⟨b, s⟩ := p
    have hmem : (b, s) ∈ scoredCategories cands query := by
      have hm : (b, s) ∈ (scoredCategories cands query).insertionSort descRel := by
        rw [hsort]; exact List.mem_cons_self _ _
      exact (List.mem_insertionSort descRel).mp hm
    obtain ⟨hbmem, hbs⟩ := mem_scoredCategories hmem
    have hbmem2 : b ∈ cands := hbmem
    have hbs2 : s = similarity b.name query := hbs
    have hmax : ∀ y ∈ scoredCategories cands query, y.2 ≤ s := by
      intro y hy
      exact head_insertionSort_rel descRel _ _ _ hsort y hy
    have hcmem : (c, similarity c.name query) ∈ scoredCategories cands query :=
      List.mem_map.mpr ⟨c, hc, rfl⟩
    have hsle : query.length ≤ s := by
      have := hmax _ hcmem
      rw [hclen] at this
      exact this
    have hsge : s ≤ query.length := by
      rw [hbs2]; exact similarity_le _ _
    have hs : s = query.length := Nat.le_antisymm hsge hsle
    have hsby : s = query.utf8ByteSize := by omega
    refine ⟨b, ?_, hbmem2, by rw [← hbs2, hs], ?_⟩
    · unfold resolveCategory
      rw [hsort]
      simp only [List.head?_cons]
      rw [if_pos hsby]
    · intro d hd
      have hdmem : (d, similarity d.name query) ∈ scoredCategories cands query :=
        List.mem_map.mpr ⟨d, hd, rfl⟩
      have hdle := hmax _ hdmem
      rw [hbs2] at hdle
      exact hdle

/-- C2 (witness): a concrete case-insensitive exact match resolving
successfully with maximal score. -/
theorem exact_match_resolves_maximal_witness :
    ∃ b, resolveCategory [⟨"Nature", ["x"], none⟩] "nature" = some (.success b)
      ∧ b ∈ [(⟨"Nature", ["x"], none⟩ : CategoryConfig)]
      ∧ similarity b.name "nature" = ("nature" : String).length
      ∧ ∀ d ∈ [(⟨"Nature", ["x"], none⟩ : CategoryConfig)],
          similarity d.name "nature" ≤ similarity b.name "nature" :=
  exact_match_resolves_maximal [⟨"Nature", ["x"], none⟩] "nature"
    ⟨"Nature", ["x"], none⟩ (by decide) (by decide) (by decide)

/-- C10 (witness): resolving "nat" against the single category "nature"
succeeds, and the lowered query is a prefix of the lowered name. -/
theorem success_implies_prefix_witness :
    (("nat" : String).toList.map asciiLower) <+:
      (("nature" : String).toList.map asciiLower)
    ∧ ("nat" : String).length ≤ ("nature" : String).length :=
  success_implies_prefix [⟨"nature", [], none⟩] "nat" ⟨"nature", [], none⟩
    (by decide) (by decide)

lemma sortedCategories_eq_nil {cats : List CategoryConfig} {query : String}
    (h : (scoredCategories cats query).insertionSort descRel = []) : cats = [] := by
  have hperm := List.perm_insertionSort descRel (scoredCategories cats query)
  rw [h] at hperm
  have hnil := hperm.symm.eq_nil
  unfold scoredCategories at hnil
  exact List.map_eq_nil_iff.mp hnil

lemma sortedSuppliers_eq_nil {sups : List SupplierRef} {query : String}
    (h : (scoredSuppliers sups query).insertionSort ascRel = []) : sups = [] := by
  have hperm := List.perm_insertionSort ascRel (scoredSuppliers sups query)
  rw [h] at hperm
  have hnil := hperm.symm.eq_nil
  unfold scoredSuppliers at hnil
  exact List.map_eq_nil_iff.mp hnil

/-- C4 (counterexample): supplier resolution on a query scoring below half
bails with an unknown-name error that carries NO suggestions (the source's
`"No suppliers for name: ..."` message lists no candidates), not the top-5
candidate list claimed for both resolutions. -/
theorem supplier_unknown_no_suggestions_cex :
    resolveSupplier [⟨"aa", "f.toml"⟩] "zz" = some (.unknown "zz" [])
    ∧ resolveSupplier [⟨"aa", "f.toml"⟩] "zz" ≠ some (.unknown "zz" ["aa"]) := by
  decide

/-- C4 (amended): when every candidate scores strictly below half the query
length, category resolution fails with the unknown-name error carrying the
top-5 suggestion list (at most five names, ordered by descending score,
each the name of a configured category); supplier resolution also fails
with its unknown-name error, but that error carries no suggestions. -/
theorem unknown_below_half (cats : List CategoryConfig) (sups : List SupplierRef)
    (query : String) (hc : cats ≠ []) (hs : sups ≠ []) (hq : query ≠ "")
    (hcat : ∀ c ∈ cats, 2 * similarity c.name query < query.length)
    (hsup : ∀ s ∈ sups, 2 * similarity s.name query < query.length) :
    resolveCategory cats query
      = some (.unknown query (categorySuggestions cats query))
    ∧ (categorySuggestions cats query).length = min 5 cats.length
    ∧ (categorySuggestions cats query).Pairwise
        (fun n1 n2 => similarity n2 query ≤ similarity n1 query)
    ∧ (∀ n ∈ categorySuggestions cats query, ∃ c ∈ cats, c.name = n)
    ∧ resolveSupplier sups query = some (.unknown query []) := by
  refine ⟨?_, ?_, ?_, ?_, ?_⟩
  · cases hsort : (scoredCategories cats query).insertionSort descRel with
    | nil => exact absurd (sortedCategories_eq_nil hsort) hc
    | cons p rest =>
      obtain ⟨b, s⟩ := p
      have hmem : (b, s) ∈ scoredCategories cats query := by
        have hm : (b, s) ∈ (scoredCategories cats query).insertionSort descRel := by
          rw [hsort]; exact List.mem_cons_self _ _
        exact (List.mem_insertionSort descRel).mp hm
      obtain ⟨hbmem, hbs⟩ := mem_scoredCategories hmem
      have hbmem2 : b ∈ cats := hbmem
      have hbs2 : s = similarity b.name query := hbs
      have hlt : 2 * s < query.length := by rw [hbs2]; exact hcat b hbmem2
      have hby := length_le_utf8ByteSize query
      have h1 : s ≠ query.utf8ByteSize := by omega
      have h2 : ¬ (2 * s ≥ query.utf8ByteSize) := by omega
      unfold resolveCategory
      rw [hsort]
      simp only [List.head?_cons]
      rw [if_neg h1, if_neg h2]
  · have hlensort :
        ((scoredCategories cats query).insertionSort descRel).length = cats.length := by
      rw [(List.perm_insertionSort descRel _).length_eq]
      unfold scoredCategories
      rw [List.length_map]
    unfold categorySuggestions
    rw [List.length_map, List.length_take, hlensort]
  · have hpw : ((scoredCategories cats query).insertionSort descRel).Pairwise descRel :=
      List.sorted_insertionSort descRel _
    have htake :
        (((scoredCategories cats query).insertionSort descRel).take 5).Pairwise descRel :=
      hpw.sublist (List.take_sublist 5 _)
    unfold categorySuggestions
    refine (List.pairwise_map).mpr ?_
    refine htake.imp_of_mem ?_
    intro a b ha hb hab
    have hamem := (List.mem_insertionSort descRel).mp
      ((List.take_sublist 5 _).subset ha)
    have hbmem := (List.mem_insertionSort descRel).mp
      ((List.take_sublist 5 _).subset hb)
    obtain ⟨_, has⟩ := mem_scoredCategories hamem
    obtain ⟨_, hbs⟩ := mem_scoredCategories hbmem
    have has2 : a.2 = similarity a.1.name query := has
    have hbs2 : b.2 = similarity b.1.name query := hbs
    have hab2 : b.2 ≤ a.2 := hab
    rw [has2, hbs2] at hab2
    exact hab2
  · intro n hn
    unfold categorySuggestions at hn
    rcases List.mem_map.mp hn with ⟨p, hp, hpn⟩
    have hpmem := (List.mem_insertionSort descRel).mp
      ((List.take_sublist 5 _).subset hp)
    obtain ⟨hp1, _⟩ := mem_scoredCategories hpmem
    exact ⟨p.1, hp1, hpn⟩
  · cases hsort : (scoredSuppliers sups query).insertionSort ascRel with
    | nil => exact absurd (sortedSuppliers_eq_nil hsort) hs
    | cons p rest =>
      obtain ⟨b, s⟩ := p
      have hmem : (b, s) ∈ scoredSuppliers sups query := by
        have hm : (b, s) ∈ (scoredSuppliers sups query).insertionSort ascRel := by
          rw [hsort]; exact List.mem_cons_self _ _
        exact (List.mem_insertionSort ascRel).mp hm
      obtain ⟨hbmem, hbs⟩ := mem_scoredSuppliers hmem
      have hbmem2 : b ∈ sups := hbmem
      have hbs2 : s = similarity b.name query := hbs
      have hlt : 2 * s < query.length := by rw [hbs2]; exact hsup b hbmem2
      have hby := length_le_utf8ByteSize query
      have h1 : s ≠ query.utf8ByteSize := by omega
      have h2 : ¬ (2 * s ≥ query.utf8ByteSize) := by omega
      unfold resolveSupplier
      rw [hsort]
      simp only [List.head?_cons]
      rw [if_neg h1, if_neg h2]

/-- C4 (witness): one category "aa" and one supplier "bb" against the query
"zz" (score 0, below half of 2): category resolution reports the unknown
error with the single suggestion "aa"; supplier resolution reports its
unknown error with no suggestions. -/
theorem unknown_below_half_witness :
    resolveCategory [⟨"aa", [], none⟩] "zz"
      = some (.unknown "zz" (categorySuggestions [⟨"aa", [], none⟩] "zz"))
    ∧ (categorySuggestions [⟨"aa", [], none⟩] "zz").length
        = min 5 ([(⟨"aa", [], none⟩ : CategoryConfig)]).length
    ∧ (categorySuggestions [⟨"aa", [], none⟩] "zz").Pairwise
        (fun n1 n2 => similarity n2 "zz" ≤ similarity n1 "zz")
    ∧ (∀ n ∈ categorySuggestions [⟨"aa", [], none⟩] "zz",
        ∃ c ∈ [(⟨"aa", [], none⟩ : CategoryConfig)], c.name = n)
    ∧ resolveSupplier [⟨"bb", "f.toml"⟩] "zz" = some (.unknown "zz" []) :=
  unknown_below_half [⟨"aa", [], none⟩] [⟨"bb", "f.toml"⟩] "zz"
    (by decide) (by decide) (by decide) (by decide) (by decide)

/-- C1 (code-bug evaluation): the supplier branch sorts ASCENDING
(`simularity1.cmp(simularity2)`), so the exact-match supplier "alpha"
(score 5, the maximum) is never looked at as `best`: the minimal-score
candidate "beta" is taken and resolution bails with the unknown-name error.
The category branch at the same input sorts descending and succeeds. -/
theorem supplier_sort_ascending_bug :
    resolveSupplier [⟨"alpha", "a.toml"⟩, ⟨"beta", "b.toml"⟩] "alpha"
      = some (.unknown "alpha" [])
    ∧ resolveCategory [⟨"alpha", [], none⟩, ⟨"beta", [], none⟩] "alpha"
      = some (.success ⟨"alpha", [], none⟩) := by
  decide

/-- C3 (code-bug evaluation): for the query "ax" the maximal-score supplier
"ab" scores 1 of 2 (ratio exactly one half), so the claim demands the
ambiguous-name error suggesting "ab"; the ascending supplier sort instead
takes "zz" (score 0) as `best` and bails with the unknown-name error.
The category branch at the same input produces the claimed error. -/
theorem supplier_ambiguous_branch_bug :
    resolveSupplier [⟨"ab", "f.toml"⟩, ⟨"zz", "g.toml"⟩] "ax"
      = some (.unknown "ax" [])
    ∧ resolveCategory [⟨"ab", [], none⟩, ⟨"zz", [], none⟩] "ax"
      = some (.ambiguous "ax" "ab") := by
  decide

/-! ### Search-parameter composition (`fetch.rs` lines 94-110) -/

/-- The merged search criteria passed to a supplier, as constructed by
`FetchArgs::run`: the ad-hoc CLI tags chained with the category tags, and
the category's aspect ratios (or empty). -/
structure SearchParameters where
  tags : List String
  aspect_ratios : List (Nat × Nat)
deriving DecidableEq, Repr

/-- Parameter composition (`fetch.rs` lines 94-110): with a category, tags
are the ad-hoc tags chained with the category tags and aspect ratios are the
category's `unwrap_or_default()`; without one, tags are the ad-hoc tags and
aspect ratios are empty. -/
def composeParameters (category : Option CategoryConfig) (adHocTags : List String) :
    SearchParameters :=
  match category with
  | some c => ⟨adHocTags ++ c.tags, c.aspect_ratios.getD []⟩
  | none => ⟨adHocTags, []⟩

/-- C5: composed parameters concatenate the ad-hoc tags (first, order and
duplicates preserved) with the category tags; aspect ratios are the
category's when present and empty otherwise; with no category the tags are
exactly the ad-hoc tags and the ratios empty. -/
theorem compose_parameters_spec (adHocTags : List String) (c : CategoryConfig)
    (rs : List (Nat × Nat)) :
    (composeParameters (some c) adHocTags).tags = adHocTags ++ c.tags
    ∧ (composeParameters (some ⟨c.name, c.tags, some rs⟩) adHocTags).aspect_ratios = rs
    ∧ (composeParameters (some ⟨c.name, c.tags, none⟩) adHocTags).aspect_ratios = []
    ∧ composeParameters none adHocTags = ⟨adHocTags, []⟩ := by
  refine ⟨?_, rfl, rfl, rfl⟩
  cases c with
  | mk name tags ars => cases ars <;> rfl

/-! ### External apply-command template (`fetch.rs` lines 206-215) -/

/-- Rust `str::split_once(' ')`: split at the first space; `none` when the
string has no space. -/
def splitOnceSpace : List Char → Option (List Char × List Char)
  | [] => none
  | c :: cs =>
    if c = ' ' then some ([], cs)
    else (splitOnceSpace cs).map (fun p => (c :: p.1, p.2))

/-- Rust `str::split(' ')`: split at every space, keeping empty pieces
(the empty string yields one empty piece). -/
def splitSpaces : List Char → List (List Char)
  | [] => [[]]
  | c :: cs =>
    if c = ' ' then [] :: splitSpaces cs
    else
      match splitSpaces cs with
      | [] => [[c]]
      | h :: t => (c :: h) :: t

/-- Rust `str::replace`, fuel-indexed so that the recursion is structural:
replace every leftmost non-overlapping occurrence of `pat` by `rep` (for a
non-empty `pat`). One fuel unit is spent per step; a replacement step
shortens the string by at least one character, so `s.length` fuel always
suffices (`replaceList` below supplies it). -/
def replaceFuel (pat rep : List Char) : Nat → List Char → List Char
  | _, [] => []
  | 0, c :: cs => c :: cs
  | fuel + 1, c :: cs =>
    if pat ≠ [] ∧ pat.isPrefixOf (c :: cs) then
      rep ++ replaceFuel pat rep fuel ((c :: cs).drop pat.length)
    else c :: replaceFuel pat rep fuel cs

/-- Rust `str::replace`: replace every leftmost non-overlapping occurrence
of `pat` by `rep` (for a non-empty `pat`). -/
def replaceList (pat rep s : List Char) : List Char :=
  replaceFuel pat rep s.length s

/-- Modelled from the spec: the spec-side reading of substitution — cut the
string at every (leftmost, non-overlapping) occurrence of the token,
yielding the between-token pieces. -/
def splitOnSeq (pat : List Char) (s : List Char) : List (List Char) :=
  match s with
  | [] => [[]]
  | c :: cs =>
    if h : pat ≠ [] ∧ pat.isPrefixOf (c :: cs) then
      [] :: splitOnSeq pat ((c :: cs).drop pat.length)
    else
      match splitOnSeq pat cs with
      | [] => [[c]]
      | h2 :: t => (c :: h2) :: t
termination_by s.length
decreasing_by
  · have h1 : 0 < pat.length := List.length_pos.mpr h.1
    simp only [List.length_drop, List.length_cons]
    omega
  · simp

/-- Modelled from the spec: interleave the replacement between the pieces. -/
def joinWith (sep : List Char) : List (List Char) → List Char
  | [] => []
  | [x] => x
  | x :: y :: t => x ++ sep ++ joinWith sep (y :: t)

lemma splitOnSeq_ne_nil (pat s : List Char) : splitOnSeq pat s ≠ [] := by
  cases s with
  | nil => simp [splitOnSeq]
  | cons c cs =>
    simp only [splitOnSeq]
    by_cases h : pat ≠ [] ∧ pat.isPrefixOf (c :: cs)
    · rw [dif_pos h]
      exact List.cons_ne_nil _ _
    · rw [dif_neg h]
      cases splitOnSeq pat cs with
      | nil => exact List.cons_ne_nil _ _
      | cons h2 t => exact List.cons_ne_nil _ _

/-- Interleaving the replacement between the token-split pieces is exactly
Rust's replace-all (fuel form): "every occurrence of the token is
substituted". -/
lemma joinWith_splitOnSeq_fuel (pat rep : List Char) :
    ∀ (fuel : Nat) (s : List Char), s.length ≤ fuel →
      joinWith rep (splitOnSeq pat s) = replaceFuel pat rep fuel s := by
  intro fuel
  induction fuel with
  | zero =>
    intro s hs
    have hs0 : s = [] := List.length_eq_zero.mp (Nat.le_zero.mp hs)
    subst hs0
    simp [splitOnSeq, replaceFuel, joinWith]
  | succ n ih =>
    intro s hs
    cases s with
    | nil => simp [splitOnSeq, replaceFuel, joinWith]
    | cons c cs =>
      simp only [splitOnSeq, replaceFuel]
      by_cases h : pat ≠ [] ∧ pat.isPrefixOf (c :: cs)
      · rw [dif_pos h, if_pos h]
        have h1 : 0 < pat.length := List.length_pos.mpr h.1
        have hdrop : (((c :: cs).drop pat.length)).length ≤ n := by
          simp only [List.length_drop, List.length_cons]
          simp only [List.length_cons] at hs
          omega
        have hrec := ih _ hdrop
        cases hsp : splitOnSeq pat ((c :: cs).drop pat.length) with
        | nil => exact absurd hsp (splitOnSeq_ne_nil pat _)
        | cons p t =>
          rw [hsp] at hrec
          calc joinWith rep ([] :: p :: t) = rep ++ joinWith rep (p :: t) := by
                simp [joinWith]
            _ = rep ++ replaceFuel pat rep n ((c :: cs).drop pat.length) := by
                rw [hrec]
      · rw [dif_neg h, if_neg h]
        have hcs : cs.length ≤ n := by
          simp only [List.length_cons] at hs
          omega
        have hrec := ih cs hcs
        cases hsp : splitOnSeq pat cs with
        | nil => exact absurd hsp (splitOnSeq_ne_nil pat _)
        | cons h2 t =>
          rw [hsp] at hrec
          show joinWith rep ((c :: h2) :: t) = c :: replaceFuel pat rep n cs
          calc joinWith rep ((c :: h2) :: t)
              = c :: joinWith rep (h2 :: t) := by
                cases t <;> simp [joinWith, List.cons_append]
            _ = c :: replaceFuel pat rep n cs := by rw [hrec]

/-- Interleaving the replacement between the token-split pieces is exactly
Rust's replace-all. -/
lemma joinWith_splitOnSeq (pat rep s : List Char) :
    joinWith rep (splitOnSeq pat s) = replaceList pat rep s :=
  joinWith_splitOnSeq_fuel pat rep s.length s (Nat.le.refl)

/-- The apply-command instantiation (`fetch.rs` lines 208-210): split the
template at the FIRST space into program and argument string (no space:
program is the whole template and the argument string is empty), substitute
the path token inside the ARGUMENT string only, then split the arguments at
every space. -/
def buildApplyCommand (command path : String) : String × List String :=
  let split := (splitOnceSpace command.toList).getD (command.toList, [])
  let args := replaceList "\x7bpath\x7d".toList path.toList split.2
  (String.mk split.1, (splitSpaces args).map String.mk)

/-- C8 (counterexample): an occurrence of the path token in the PROGRAM
position (before the first space) of the template is not substituted: the
template "\x7bpath\x7d stretch" keeps the literal token as the program. -/
theorem path_token_in_program_not_substituted :
    buildApplyCommand "\x7bpath\x7d stretch" "/img.png"
      = ("\x7bpath\x7d", ["stretch"])
    ∧ ("\x7bpath\x7d" : String) ≠ "/img.png" := by
  decide

/-- C8 (amended): the program is the template's first space-delimited token
taken verbatim; in the remainder (the argument portion) every occurrence of
the literal path token is substituted with the persisted path — the
substituted argument string is the argument portion cut at every token
occurrence and re-joined with the path interleaved — and the result is then
split at every space. -/
theorem apply_template_substitution (command path : String) :
    (buildApplyCommand command path).1
      = String.mk (((splitOnceSpace command.toList).getD (command.toList, [])).1)
    ∧ (buildApplyCommand command path).2
      = (splitSpaces (joinWith path.toList
          (splitOnSeq "\x7bpath\x7d".toList
            (((splitOnceSpace command.toList).getD (command.toList, [])).2)))).map
          String.mk := by
  refine ⟨rfl, ?_⟩
  unfold buildApplyCommand
  rw [joinWith_splitOnSeq]

/-! ### The fetch run pipeline (`FetchArgs::run`, `fetch.rs` lines 39-242)

The run is embedded as a pure function over the configuration, the CLI
arguments and an oracle of external-effect outcomes (file reads, the random
pick, the network fetch, filesystem writes, the spawned process); the
returned trace records the persisted path (if persistence completed) next
to the run's result. A Rust `panic!` (the source's `.unwrap()` on the
spawned command's result) is a distinct terminal outcome. -/

/-- Global configuration as used by `FetchArgs::run`. -/
structure GlobalConfig where
  categories : List CategoryConfig
  suppliers : List SupplierRef
  set_command : Option String
deriving DecidableEq, Repr

/-- The CLI arguments of the fetch subcommand. -/
structure FetchArgs where
  assign : Bool
  output : Option String
  category : Option String
  supplier : Option String
  tags : List String
  nsfw : Bool
  simple : Bool
deriving DecidableEq, Repr

/-- Outcome of spawning the external apply command: the process could not
be launched (Rust `Command::output()` returned `Err`), or it ran with the
given exit status and a standard-error that is (`some`) or is not (`none`)
valid UTF-8. -/
inductive ApplyOutcome where
  | launchFailed
  | ran (exitSuccess : Bool) (stderrUtf8 : Option String)
deriving DecidableEq, Repr

/-- Oracle for the run's external effects. -/
structure Effects where
  randomIndex : Nat
  supplierFileContents : Option String
  supplierParses : Bool
  fetchSucceeds : Bool
  saveSucceeds : Bool
  canonicalizeOutput : Option String
  cachePath : Option String
  applyOutcome : ApplyOutcome
  canonicalizeFinal : Option String
deriving DecidableEq, Repr

/-- The run's error cases (each a `bail!`/`?` site of `FetchArgs::run`). -/
inductive RunError where
  | noCategoriesConfigured
  | noSuppliersConfigured
  | ambiguousName (query suggestion : String)
  | unknownName (query : String) (suggestions : List String)
  | supplierFileUnreadable
  | supplierFileMalformed
  | fetchFailed
  | persistenceFailed
  | canonicalizeFailed
  | missingApplyCommand
  | applyStderrInvalidUtf8
deriving DecidableEq, Repr

/-- The run's terminal outcome; `panicked` models a Rust panic. -/
inductive RunResult where
  | ok
  | err (e : RunError)
  | panicked
deriving DecidableEq, Repr

/-- The observable trace of one run: where the image was persisted (if
persistence completed) and the run's outcome. -/
structure RunTrace where
  persisted : Option String
  result : RunResult
deriving DecidableEq, Repr

/-- Category-resolution step (`fetch.rs` lines 41-92): skipped without a
category argument; with one, an empty category list bails, otherwise the
resolver's error branches bail and its success is kept. -/
def resolveCategoryStep (cfg : GlobalConfig) (args : FetchArgs) :
    Except RunError (Option CategoryConfig) :=
  match args.category with
  | none => .ok none
  | some qname =>
    if cfg.categories = [] then .error .noCategoriesConfigured
    else
      match resolveCategory cfg.categories qname with
      | none => .error .noCategoriesConfigured
      | some (.success c) => .ok (some c)
      | some (.ambiguous q s) => .error (.ambiguousName q s)
      | some (.unknown q l) => .error (.unknownName q l)

/-- Supplier-selection step (`fetch.rs` lines 113-159): an empty supplier
list bails; a named supplier goes through the resolver; with no name the
supplier is picked by the (oracled) random choice. -/
def selectSupplierStep (cfg : GlobalConfig) (args : FetchArgs) (fx : Effects) :
    Except RunError SupplierRef :=
  if h : cfg.suppliers = [] then .error .noSuppliersConfigured
  else
    match args.supplier with
    | some qname =>
      match resolveSupplier cfg.suppliers qname with
      | none => .error .noSuppliersConfigured
      | some (.success s) => .ok s
      | some (.ambiguous q s) => .error (.ambiguousName q s)
      | some (.unknown q l) => .error (.unknownName q l)
    | none =>
      .ok (cfg.suppliers.get
        ⟨fx.randomIndex % cfg.suppliers.length,
         Nat.mod_lt _ (List.length_pos.mpr h)⟩)

/-- Supplier-definition load (`fetch.rs` lines 161-174): the file read can
fail (bail) and the TOML parse can fail (`?`). -/
def loadSupplierStep (fx : Effects) : Except RunError Unit :=
  match fx.supplierFileContents with
  | none => .error .supplierFileUnreadable
  | some _ => if fx.supplierParses then .ok () else .error .supplierFileMalformed

/-- Everything before persistence (`fetch.rs` lines 40-187): category
resolution, parameter composition, supplier selection and load, fetch. -/
def preparePhase (cfg : GlobalConfig) (args : FetchArgs) (fx : Effects) :
    Except RunError SearchParameters :=
  match resolveCategoryStep cfg args with
  | .error e => .error e
  | .ok cat =>
    let params := composeParameters cat args.tags
    match selectSupplierStep cfg args fx with
    | .error e => .error e
    | .ok _sup =>
      match loadSupplierStep fx with
      | .error e => .error e
      | .ok _ => if fx.fetchSucceeds then .ok params else .error .fetchFailed

/-- Persistence (`fetch.rs` lines 189-204): an explicit output path is
saved to (then canonicalized for the progress message — a failure there
errors the run AFTER the file was written); otherwise the image is cached.
The first component records where the image was persisted, the second the
step's result (the path the run continues with). -/
def persistPhase (args : FetchArgs) (fx : Effects) :
    Option String × Except RunError String :=
  match args.output with
  | some out =>
    if fx.saveSucceeds then
      match fx.canonicalizeOutput with
      | some _ => (some out, .ok out)
      | none => (some out, .error .canonicalizeFailed)
    else (none, .error .persistenceFailed)
  | none =>
    match fx.cachePath with
    | some p => (some p, .ok p)
    | none => (none, .error .persistenceFailed)

/-- The assign step (`fetch.rs` lines 206-230): only with the assign flag;
no configured `set_command` bails; otherwise the command template is
instantiated with the persisted path and spawned — a launch failure hits
the source's `.unwrap()` and panics; a completed process reports success or
failure (reading stderr through `String::from_utf8(..)?`, whose failure
errors the run) unless simple mode suppresses the report. -/
def applyPhase (cfg : GlobalConfig) (args : FetchArgs) (fx : Effects)
    (path : String) : RunResult :=
  if args.assign then
    match cfg.set_command with
    | none => .err .missingApplyCommand
    | some cmd =>
      let _command := buildApplyCommand cmd path
      match fx.applyOutcome with
      | .launchFailed => .panicked
      | .ran exitSuccess stderrUtf8 =>
        if args.simple then .ok
        else if exitSuccess then .ok
        else
          match stderrUtf8 with
          | some _ => .ok
          | none => .err .applyStderrInvalidUtf8
  else .ok

/-- The final simple-mode print (`fetch.rs` lines 232-239): canonicalizing
the persisted path for printing can fail (`?`). -/
def finalPhase (args : FetchArgs) (fx : Effects) : RunResult :=
  if args.simple then
    match fx.canonicalizeFinal with
    | some _ => .ok
    | none => .err .canonicalizeFailed
  else .ok

/-- The whole run (`FetchArgs::run`): prepare, persist, assign, final. -/
def run (cfg : GlobalConfig) (args : FetchArgs) (fx : Effects) : RunTrace :=
  match preparePhase cfg args fx with
  | .error e => ⟨none, .err e⟩
  | .ok _params =>
    match persistPhase args fx with
    | (persisted, .error e) => ⟨persisted, .err e⟩
    | (persisted, .ok path) =>
      match applyPhase cfg args fx path with
      | .ok => ⟨persisted, finalPhase args fx⟩
      | r => ⟨persisted, r⟩

lemma resolveCategoryStep_error_ne_missing (cfg : GlobalConfig)
    (args : FetchArgs) (e : RunError)
    (h : resolveCategoryStep cfg args = .error e) : e ≠ .missingApplyCommand := by
  unfold resolveCategoryStep at h
  cases hac : args.category with
  | none => simp only [hac] at h <;> exact Except.noConfusion h
  | some q =>
    simp only [hac] at h
    by_cases hc : cfg.categories = []
    · rw [if_pos hc] at h
      injection h with h2
      rw [← h2]
      simp
    · rw [if_neg hc] at h
      cases hr : resolveCategory cfg.categories q with
      | none =>
        rw [hr] at h
        injection h with h2
        rw [← h2]
        simp
      | some r =>
        rw [hr] at h
        cases r with
        | success c => exact Except.noConfusion h
        | ambiguous q2 s2 =>
          injection h with h2
          rw [← h2]
          simp
        | unknown q2 l2 =>
          injection h with h2
          rw [← h2]
          simp

lemma selectSupplierStep_error_ne_missing (cfg : GlobalConfig)
    (args : FetchArgs) (fx : Effects) (e : RunError)
    (h : selectSupplierStep cfg args fx = .error e) : e ≠ .missingApplyCommand := by
  unfold selectSupplierStep at h
  by_cases hc : cfg.suppliers = []
  · rw [dif_pos hc] at h
    injection h with h2
    rw [← h2]
    simp
  · rw [dif_neg hc] at h
    cases has : args.supplier with
    | none => simp only [has] at h <;> exact Except.noConfusion h
    | some q =>
      simp only [has] at h
      cases hr : resolveSupplier cfg.suppliers q with
      | none =>
        rw [hr] at h
        injection h with h2
        rw [← h2]
        simp
      | some r =>
        rw [hr] at h
        cases r with
        | success s => exact Except.noConfusion h
        | ambiguous q2 s2 =>
          injection h with h2
          rw [← h2]
          simp
        | unknown q2 l2 =>
          injection h with h2
          rw [← h2]
          simp

lemma loadSupplierStep_error_ne_missing (fx : Effects) (e : RunError)
    (h : loadSupplierStep fx = .error e) : e ≠ .missingApplyCommand := by
  unfold loadSupplierStep at h
  cases hf : fx.supplierFileContents with
  | none =>
    rw [hf] at h
    injection h with h2
    rw [← h2]
    simp
  | some content =>
    rw [hf] at h
    by_cases hp : fx.supplierParses = true
    · rw [if_pos hp] at h
      exact Except.noConfusion h
    · rw [if_neg hp] at h
      injection h with h2
      rw [← h2]
      simp

lemma preparePhase_error_ne_missing (cfg : GlobalConfig) (args : FetchArgs)
    (fx : Effects) (e : RunError)
    (h : preparePhase cfg args fx = .error e) : e ≠ .missingApplyCommand := by
  unfold preparePhase at h
  cases h1 : resolveCategoryStep cfg args with
  | error e1 =>
    rw [h1] at h
    injection h with h2
    rw [← h2]
    exact resolveCategoryStep_error_ne_missing cfg args e1 h1
  | ok cat =>
    rw [h1] at h
    simp only at h
    cases h2 : selectSupplierStep cfg args fx with
    | error e2 =>
      rw [h2] at h
      injection h with h3
      rw [← h3]
      exact selectSupplierStep_error_ne_missing cfg args fx e2 h2
    | ok sup =>
      rw [h2] at h
      cases h3 : loadSupplierStep fx with
      | error e3 =>
        rw [h3] at h
        injection h with h4
        rw [← h4]
        exact loadSupplierStep_error_ne_missing fx e3 h3
      | ok u =>
        rw [h3] at h
        by_cases h4 : fx.fetchSucceeds = true
        · rw [if_pos h4] at h
          exact Except.noConfusion h
        · rw [if_neg h4] at h
          injection h with h5
          rw [← h5]
          simp

lemma persistPhase_ok_eq (args : FetchArgs) (fx : Effects) (per : Option String)
    (path : String) (h : persistPhase args fx = (per, .ok path)) :
    per = some path := by
  unfold persistPhase at h
  cases ho : args.output with
  | some out =>
    simp only [ho] at h
    by_cases hsv : fx.saveSucceeds = true
    · rw [if_pos hsv] at h
      cases hco : fx.canonicalizeOutput with
      | some cpath =>
        rw [hco] at h
        injection h with h1 h2
        injection h2 with h3
        rw [← h1, h3]
      | none =>
        rw [hco] at h
        injection h with h1 h2
        exact Except.noConfusion h2
    · rw [if_neg hsv] at h
      injection h with h1 h2
      exact Except.noConfusion h2
  | none =>
    simp only [ho] at h
    cases hcp : fx.cachePath with
    | some p2 =>
      rw [hcp] at h
      injection h with h1 h2
      injection h2 with h3
      rw [← h1, h3]
    | none =>
      rw [hcp] at h
      injection h with h1 h2
      exact Except.noConfusion h2

lemma persistPhase_error_ne_missing (args : FetchArgs) (fx : Effects)
    (per : Option String) (e : RunError)
    (h : persistPhase args fx = (per, .error e)) : e ≠ .missingApplyCommand := by
  unfold persistPhase at h
  cases ho : args.output with
  | some out =>
    simp only [ho] at h
    by_cases hsv : fx.saveSucceeds = true
    · rw [if_pos hsv] at h
      cases hco : fx.canonicalizeOutput with
      | some cpath =>
        rw [hco] at h
        injection h with h1 h2
        exact Except.noConfusion h2
      | none =>
        rw [hco] at h
        injection h with h1 h2
        injection h2 with h3
        rw [← h3]
        simp
    · rw [if_neg hsv] at h
      injection h with h1 h2
      injection h2 with h3
      rw [← h3]
      simp
  | none =>
    simp only [ho] at h
    cases hcp : fx.cachePath with
    | some p2 =>
      rw [hcp] at h
      injection h with h1 h2
      exact Except.noConfusion h2
    | none =>
      rw [hcp] at h
      injection h with h1 h2
      injection h2 with h3
      rw [← h3]
      simp

/-- C6: with the assign flag set and no `set_command` configured, any run
that completes persistence fails with the missing-apply-command error while
the trace still records the image as persisted at its resolved path; and
conversely a run can only fail with that error when persistence has
completed (the bail sits after the persistence step in the pipeline). -/
theorem missing_apply_command_after_persist (cfg : GlobalConfig)
    (args : FetchArgs) (fx : Effects) (p : String) (params : SearchParameters)
    (hassign : args.assign = true) (hcmd : cfg.set_command = none)
    (hprep : preparePhase cfg args fx = .ok params)
    (hpersist : persistPhase args fx = (some p, .ok p)) :
    run cfg args fx = ⟨some p, .err .missingApplyCommand⟩
    ∧ ∀ (cfg2 : GlobalConfig) (args2 : FetchArgs) (fx2 : Effects),
        (run cfg2 args2 fx2).result = .err .missingApplyCommand →
        (run cfg2 args2 fx2).persisted.isSome = true := by
  constructor
  · have happly : applyPhase cfg args fx p = .err .missingApplyCommand := by
      unfold applyPhase
      rw [hassign, hcmd]
      simp
    simp [run, hprep, hpersist, happly]
  · intro cfg2 args2 fx2 hres
    unfold run at hres ⊢
    cases hprep2 : preparePhase cfg2 args2 fx2 with
    | error e =>
      rw [hprep2] at hres
      simp at hres
      exact absurd hres (preparePhase_error_ne_missing _ _ _ _ hprep2)
    | ok params2 =>
      rw [hprep2] at hres
      cases hper : persistPhase args2 fx2 with
      | mk per res =>
        cases res with
        | error e =>
          rw [hper] at hres
          simp at hres
          exact absurd hres (persistPhase_error_ne_missing _ _ _ _ hper)
        | ok path =>
          have hsome : per = some path := persistPhase_ok_eq _ _ _ _ hper
          subst hsome
          show (match applyPhase cfg2 args2 fx2 path with
              | RunResult.ok =>
                ({ persisted := some path,
                   result := finalPhase args2 fx2 } : RunTrace)
              | r =>
                ({ persisted := some path, result := r } : RunTrace)).persisted.isSome
            = true
          split <;> rfl

/-- C6 (witness): a concrete run — one supplier, no category argument,
cache persistence succeeding at "/cache/abc.png", assign set, no command
template — fails with the missing-apply-command error while the trace
keeps the persisted cache path. -/
theorem missing_apply_command_after_persist_witness :
    run ⟨[], [⟨"wallhaven", "wallhaven.toml"⟩], none⟩
        ⟨true, none, none, none, [], false, false⟩
        ⟨0, some "url", true, true, true, none, some "/cache/abc.png",
         .ran true (some ""), some "/cache/abc.png"⟩
      = ⟨some "/cache/abc.png", .err .missingApplyCommand⟩ :=
  (missing_apply_command_after_persist
    ⟨[], [⟨"wallhaven", "wallhaven.toml"⟩], none⟩
    ⟨true, none, none, none, [], false, false⟩
    ⟨0, some "url", true, true, true, none, some "/cache/abc.png",
     .ran true (some ""), some "/cache/abc.png"⟩
    "/cache/abc.png" ⟨[], []⟩ rfl rfl rfl rfl).1

/-- C7 (code-bug evaluation): with assign set and a command template
configured, a LAUNCH failure of the external process hits the source's
`.unwrap()` and panics the run — it is neither reported nor non-fatal —
while a process that ran and exited non-zero (with UTF-8 stderr) is
reported and leaves the run successful, as the claim describes. -/
theorem apply_launch_failure_panics :
    run ⟨[], [⟨"wallhaven", "wallhaven.toml"⟩], some "swww img \x7bpath\x7d"⟩
        ⟨true, none, none, none, [], false, false⟩
        ⟨0, some "url", true, true, true, none, some "/cache/abc.png",
         .launchFailed, some "/cache/abc.png"⟩
      = ⟨some "/cache/abc.png", .panicked⟩
    ∧ run ⟨[], [⟨"wallhaven", "wallhaven.toml"⟩], some "swww img \x7bpath\x7d"⟩
        ⟨true, none, none, none, [], false, false⟩
        ⟨0, some "url", true, true, true, none, some "/cache/abc.png",
         .ran false (some "no wayland display"), some "/cache/abc.png"⟩
      = ⟨some "/cache/abc.png", .ok⟩ := by
  decide

end Walltz
